import Mathlib

/-!
Verification of the seekable buffered I/O layer (`cmd/internal/bio`, file
`buf.go`): a `Reader`/`Writer` pair wrapping a random-access file handle
(`os.File`) together with a buffering layer (`bufio.Reader`/`bufio.Writer`).

The embedding models bytes as natural numbers, the underlying handle as a
`File` (content, cursor position, and what the stream reports once the
content is exhausted: clean end-of-stream or a genuine I/O error), the
bufio read-ahead buffer as the list of buffered-but-unconsumed bytes, and
the bufio write-behind buffer as the list of buffered-but-unwritten bytes
with the standard buffer capacity of 4096 bytes and bufio's sticky error
flag.  `log.Fatalf` calls are modelled by the `Out.fatal` outcome.
-/

namespace Bio

/-- bufio's default buffer size, used by `bufio.NewReader`/`bufio.NewWriter`. -/
def bufSize : Nat := 4096

/-- What the underlying stream reports once its data is exhausted:
clean end-of-stream (`io.EOF`) or a genuine I/O error. -/
inductive Tail where
  | eof
  | ioErr
deriving DecidableEq

/-- Errors surfaced by the buffered-read layer: `io.EOF`,
`io.ErrUnexpectedEOF`, a genuine I/O error, and `bufio.ErrBufferFull`. -/
inductive RErr where
  | eofE
  | unexpEofE
  | ioE
  | bufFullE
deriving DecidableEq

/-- The error an exhausted stream returns from a read, per its tail status. -/
def Tail.toErr : Tail → RErr
  | .eof => .eofE
  | .ioErr => .ioE

/-- The underlying readable handle / byte source: content, cursor position,
and tail status.  For a handle obtained from `os.Open` the tail is `eof`;
`ioErr` models a faulty device that fails mid-stream. -/
structure File where
  content : List Nat
  pos : Nat
  tail : Tail
deriving DecidableEq

/-- Bytes still ahead of the cursor. -/
def File.avail (s : File) : List Nat := s.content.drop s.pos

/-- `os.File.Seek`: resolves `whence` (0 = start, 1 = current, 2 = end) to an
absolute target; a negative target or an invalid `whence` is an error. -/
def File.seek (s : File) (offset : Int) (whence : Nat) : Except Unit (Int × File) :=
  if whence = 0 then
    if offset < 0 then .error () else .ok (offset, { s with pos := offset.toNat })
  else if whence = 1 then
    let t : Int := (s.pos : Int) + offset
    if t < 0 then .error () else .ok (t, { s with pos := t.toNat })
  else if whence = 2 then
    let t : Int := (s.content.length : Int) + offset
    if t < 0 then .error () else .ok (t, { s with pos := t.toNat })
  else .error ()

/-- Outcome of an operation that may call `log.Fatalf`: a normal result or a
fatal abort of the whole program. -/
inductive Out (α : Type) where
  | ok (a : α)
  | fatal
deriving DecidableEq

/-- `bio.Reader`: the optional `os.File` handle `f` (present for `Open`,
absent for the `BufReader` adapter), the byte source the `bufio.Reader`
draws from, and the bufio read-ahead buffer (buffered, unconsumed bytes). -/
structure Reader where
  f : Option Unit
  src : File
  buf : List Nat
deriving DecidableEq

/-- `bio.Open`: a reader over a fresh handle on the given content
(success path; the cursor starts at 0 and the buffer is empty). -/
def Open (content : List Nat) : Reader :=
  { f := some (), src := { content := content, pos := 0, tail := .eof }, buf := [] }

/-- `bio.BufReader`: the adapter constructor over a plain byte stream;
carries no handle (`f = none`). -/
def BufReader (s : File) : Reader :=
  { f := none, src := s, buf := [] }

/-- The bytes the caller has not yet consumed: buffered bytes followed by the
bytes still ahead of the raw cursor. -/
def remaining (r : Reader) : List Nat := r.buf ++ r.src.avail

/-- The logical position: raw handle cursor minus buffered-but-unconsumed
bytes. -/
def logicalPos (r : Reader) : Int := (r.src.pos : Int) - r.buf.length

/-- `bufio.Reader.Read`: serve from the buffer if nonempty; otherwise, for a
large request read straight from the source, else fill the buffer with one
chunk and serve from it.  Errors only when no byte can be produced. -/
def bufioRead (r : Reader) (k : Nat) : Except RErr (List Nat × Reader) :=
  if k = 0 then .ok ([], r)
  else if r.buf = [] then
    match r.src.avail with
    | [] => .error r.src.tail.toErr
    | a :: rest =>
      if bufSize ≤ k then
        let bs := (a :: rest).take k
        .ok (bs, { r with src := { r.src with pos := r.src.pos + bs.length } })
      else
        let chunk := (a :: rest).take bufSize
        .ok (chunk.take k,
          { r with src := { r.src with pos := r.src.pos + chunk.length },
                   buf := chunk.drop k })
  else .ok (r.buf.take k, { r with buf := r.buf.drop k })

/-- `bio.Reader.Read`: pass-through to the underlying `bufio.Reader.Read`. -/
def Reader.Read (r : Reader) (k : Nat) : Except RErr (List Nat × Reader) :=
  bufioRead r k

/-- `bio.Reader.Peek` (pass-through to `bufio.Reader.Peek`): fill the buffer
until it holds `n` bytes or the source is exhausted; return the first `n`
buffered bytes without consuming them, together with the error, if any. -/
def Reader.Peek (r : Reader) (n : Nat) : List Nat × Reader × Option RErr :=
  if bufSize < n then ([], r, some .bufFullE)
  else if n ≤ r.buf.length then (r.buf.take n, r, none)
  else
    let grab := min (bufSize - r.buf.length) r.src.avail.length
    let buf' := r.buf ++ r.src.avail.take grab
    let r' := { r with buf := buf',
                       src := { r.src with pos := r.src.pos + grab } }
    if n ≤ buf'.length then (buf'.take n, r', none)
    else (buf', r', some r.src.tail.toErr)

/-- `bio.Reader.Seek`: for `whence = 1` first subtract the buffered byte
count, then seek the handle (fatal on failure, and the nil handle of an
adapter reader makes the seek fail) and reset the buffer. -/
def Reader.Seek (r : Reader) (offset : Int) (whence : Nat) : Out (Int × Reader) :=
  let offset' := if whence = 1 then offset - r.buf.length else offset
  match r.f with
  | none => .fatal
  | some _ =>
    match r.src.seek offset' whence with
    | .error _ => .fatal
    | .ok (off, f') => .ok (off, { r with src := f', buf := [] })

/-- `bio.Reader.Offset`: the handle's raw cursor (via `f.Seek(0, 1)`, which
fails fatally on a nil handle) minus the buffered byte count. -/
def Reader.Offset (r : Reader) : Out Int :=
  match r.f with
  | none => .fatal
  | some _ => .ok ((r.src.pos : Int) - r.buf.length)

/-- The `EOF` sentinel constant of the package. -/
def EOF : Int := -1

/-- `bufio.Reader.ReadByte`: pop a buffered byte if available; otherwise fill
the buffer with one chunk and pop, and report the tail error if the source
is exhausted. -/
def bufioReadByte (r : Reader) : Except RErr (Nat × Reader) :=
  match r.buf with
  | b :: rest => .ok (b, { r with buf := rest })
  | [] =>
    match r.src.avail with
    | [] => .error r.src.tail.toErr
    | a :: rest =>
      let tailChunk := rest.take (bufSize - 1)
      .ok (a, { r with src := { r.src with pos := r.src.pos + 1 + tailChunk.length },
                       buf := tailChunk })

/-- `bio.Bgetc`: a single byte, the `EOF` sentinel on clean end-of-stream,
and fatal on any other read error. -/
def Bgetc (r : Reader) : Out (Int × Reader) :=
  match bufioReadByte r with
  | .ok (c, r') => .ok ((c : Int), r')
  | .error .eofE => .ok (EOF, r)
  | .error _ => .fatal

/-- The read loop of `io.ReadFull` / `io.ReadAtLeast`, with an explicit
iteration budget (`fuel`) for structural recursion: every successful `Read`
yields at least one byte, so a budget of `k` iterations is never exhausted
before the demand is met or a read errors. -/
def readFullAux : Nat → Reader → Nat → List Nat × Reader × Option RErr
  | 0, r, _ => ([], r, none)
  | fuel + 1, r, k =>
    if k = 0 then ([], r, none)
    else
      match bufioRead r k with
      | .error e => ([], r, some e)
      | .ok (bs, r') =>
        if bs.length = 0 then ([], r', none)
        else
          let t := readFullAux fuel r' (k - bs.length)
          (bs ++ t.1, t.2.1, t.2.2)

/-- The read loop of `io.ReadFull` / `io.ReadAtLeast`: call `Read` until `k`
bytes are gathered or a read errors; returns the gathered bytes, the final
reader and the terminating error, if any. -/
def readFull (r : Reader) (k : Nat) : List Nat × Reader × Option RErr :=
  readFullAux k r k

/-- `io.ReadFull`'s result adjustment (from `io.ReadAtLeast`): no error when
the request was met; `io.ErrUnexpectedEOF` when some bytes arrived before a
clean end-of-stream. -/
def ioReadFull (r : Reader) (k : Nat) : Nat × List Nat × Reader × Option RErr :=
  let t := readFull r k
  let n := t.1.length
  if k ≤ n then (n, t.1, t.2.1, none)
  else if 0 < n ∧ t.2.2 = some .eofE then (n, t.1, t.2.1, some .unexpEofE)
  else (n, t.1, t.2.1, t.2.2)

/-- `bio.Bread` into a caller buffer of length `k`: the count filled, turned
into `-1` when zero bytes were obtained and the cause was not `io.EOF`.
Returns the count, the bytes actually placed in the buffer, and the reader. -/
def Bread (r : Reader) (k : Nat) : Int × List Nat × Reader :=
  let t := ioReadFull r k
  if t.1 = 0 ∧ t.2.2.2 ≠ none ∧ t.2.2.2 ≠ some RErr.eofE then (-1, t.2.1, t.2.2.1)
  else ((t.1 : Nat), t.2.1, t.2.2.1)

/-- Splits a byte list at the first occurrence of `d`: the segment up to and
including `d`, and the rest; `none` when `d` does not occur. -/
def span (d : Nat) : List Nat → Option (List Nat × List Nat)
  | [] => none
  | b :: bs =>
    if b = d then some ([b], bs)
    else
      match span d bs with
      | none => none
      | some (p, rest) => some (b :: p, rest)

/-- Consume `m` bytes through the buffered reader (the state-change part of a
reading loop). -/
def consumeN (r : Reader) (m : Nat) : Reader := (readFull r m).2.1

/-- `bufio.Reader.ReadBytes(d)`: the bytes up to and including the first
occurrence of `d`; when the source is exhausted before `d` occurs, all the
remaining bytes together with the tail error. -/
def readBytes (r : Reader) (d : Nat) : List Nat × Reader × Option RErr :=
  match span d (remaining r) with
  | some (p, _) => (p, consumeN r p.length, none)
  | none => (remaining r, consumeN r (remaining r).length, some r.src.tail.toErr)

/-- `bio.Brdline`: `ReadBytes(byte(delim))`, fatal on any error it reports
(`io.EOF` included). -/
def Brdline (r : Reader) (delim : Nat) : Out (List Nat × Reader) :=
  match readBytes r (delim % 256) with
  | (_, _, some _) => .fatal
  | (s, r', none) => .ok (s, r')

/-- Errors surfaced by the buffered-write layer: an underlying write failure
and a handle-close failure (`ErrInvalid` on a nil handle included). -/
inductive WErr where
  | writeE
  | closeE
deriving DecidableEq

/-- The underlying writable handle: content, cursor position, and fault
flags (`wfail`: writes fail, as on a full disk; `cfail`: closing fails). -/
structure WFile where
  content : List Nat
  pos : Nat
  wfail : Bool
  cfail : Bool
deriving DecidableEq

/-- `os.File.Write` at the cursor: overwrite in place, zero-padding a gap
left by a seek past the end, and advance the cursor. -/
def WFile.write (d : WFile) (bs : List Nat) : Except Unit WFile :=
  if d.wfail then .error ()
  else .ok { d with
    content := d.content.take d.pos ++ List.replicate (d.pos - d.content.length) 0
      ++ bs ++ d.content.drop (d.pos + bs.length),
    pos := d.pos + bs.length }

/-- `os.File.Seek` for the writable handle, as for `File.seek`. -/
def WFile.seek (d : WFile) (offset : Int) (whence : Nat) : Except Unit (Int × WFile) :=
  if whence = 0 then
    if offset < 0 then .error () else .ok (offset, { d with pos := offset.toNat })
  else if whence = 1 then
    let t : Int := (d.pos : Int) + offset
    if t < 0 then .error () else .ok (t, { d with pos := t.toNat })
  else if whence = 2 then
    let t : Int := (d.content.length : Int) + offset
    if t < 0 then .error () else .ok (t, { d with pos := t.toNat })
  else .error ()

/-- `bio.Writer`: the optional `os.File` handle `f` (present for `Create`,
absent for the `BufWriter` adapter), the destination the `bufio.Writer`
flushes to, the write-behind buffer, and bufio's sticky error flag. -/
structure Writer where
  f : Option Unit
  dst : WFile
  wbuf : List Nat
  werr : Bool
deriving DecidableEq

/-- `bio.Create`: a writer over a fresh handle (success path; empty content,
cursor 0, no faults, empty buffer). -/
def Create : Writer :=
  { f := some (),
    dst := { content := [], pos := 0, wfail := false, cfail := false },
    wbuf := [], werr := false }

/-- `bio.BufWriter`: the adapter constructor over a plain byte sink; carries
no handle (`f = none`). -/
def BufWriter (d : WFile) : Writer :=
  { f := none, dst := d, wbuf := [], werr := false }

/-- `bufio.Writer.Flush`: report the sticky error if set; otherwise write the
buffered bytes (if any) to the destination, recording a failure in the
sticky flag. -/
def bflush (w : Writer) : Writer × Option WErr :=
  if w.werr then (w, some .writeE)
  else if w.wbuf = [] then (w, none)
  else
    match w.dst.write w.wbuf with
    | .error _ => ({ w with werr := true }, some .writeE)
    | .ok d' => ({ w with dst := d', wbuf := [] }, none)

/-- `bio.Writer.Flush`: pass-through to `bufio.Writer.Flush`. -/
def Writer.Flush (w : Writer) : Writer × Option WErr := bflush w

/-- `bufio.Writer.Write`: append to the buffer when it fits; otherwise bypass
the buffer for a large write when the buffer is empty, or top the buffer up
to capacity, flush it, and place what is left (buffering it when it now
fits).  Returns the writer, the count accepted, and the error, if any. -/
def bwrite (w : Writer) (p : List Nat) : Writer × Nat × Option WErr :=
  if w.werr then (w, 0, some .writeE)
  else if p.length ≤ bufSize - w.wbuf.length then
    ({ w with wbuf := w.wbuf ++ p }, p.length, none)
  else if w.wbuf.length = 0 then
    match w.dst.write p with
    | .error _ => ({ w with werr := true }, 0, some .writeE)
    | .ok d' => ({ w with dst := d' }, p.length, none)
  else
    let n := bufSize - w.wbuf.length
    let rest := p.drop n
    match w.dst.write (w.wbuf ++ p.take n) with
    | .error _ => ({ w with wbuf := w.wbuf ++ p.take n, werr := true }, n, some .writeE)
    | .ok d' =>
      if bufSize < rest.length then
        match d'.write rest with
        | .error _ => ({ w with dst := d', wbuf := [], werr := true }, n, some .writeE)
        | .ok d'' => ({ w with dst := d'', wbuf := [] }, p.length, none)
      else ({ w with dst := d', wbuf := rest }, p.length, none)

/-- `bio.Writer.Write`: pass-through to `bufio.Writer.Write`. -/
def Writer.Write (w : Writer) (p : List Nat) : Writer × Nat × Option WErr :=
  bwrite w p

/-- `bio.Writer.WriteString`: `bufio.Writer.WriteString`, which buffers the
string's bytes exactly as `Write` does. -/
def Writer.WriteString (w : Writer) (p : List Nat) : Writer × Nat × Option WErr :=
  bwrite w p

/-- `bio.Writer.WriteByte` (pass-through to `bufio.Writer.WriteByte`): report
the sticky error if set; flush first when the buffer is full; then buffer
the byte. -/
def Writer.WriteByte (w : Writer) (c : Nat) : Writer × Option WErr :=
  if w.werr then (w, some .writeE)
  else if bufSize - w.wbuf.length = 0 then
    match bflush w with
    | (w', some e) => (w', some e)
    | (w', none) => ({ w' with wbuf := w'.wbuf ++ [c] }, none)
  else ({ w with wbuf := w.wbuf ++ [c] }, none)

/-- `bio.Writer.Seek`: flush unconditionally (fatal on failure), then seek
the handle (fatal on failure, the nil handle of an adapter included) and
return the resulting absolute position. -/
def Writer.Seek (w : Writer) (offset : Int) (whence : Nat) : Out (Int × Writer) :=
  match bflush w with
  | (_, some _) => .fatal
  | (w', none) =>
    match w'.f with
    | none => .fatal
    | some _ =>
      match w'.dst.seek offset whence with
      | .error _ => .fatal
      | .ok (off, d') => .ok (off, { w' with dst := d' })

/-- `bio.Writer.Offset`: flush (fatal on failure), then return the handle's
raw cursor via `f.Seek(0, 1)` (fatal on failure, the nil handle of an
adapter included). -/
def Writer.Offset (w : Writer) : Out (Int × Writer) :=
  match bflush w with
  | (_, some _) => .fatal
  | (w', none) =>
    match w'.f with
    | none => .fatal
    | some _ => .ok ((w'.dst.pos : Int), w')

/-- `os.File.Close` on the writer's handle: `ErrInvalid` for a nil handle,
otherwise the handle's close outcome. -/
def fclose (w : Writer) : Option WErr :=
  match w.f with
  | none => some .closeE
  | some _ => if w.dst.cfail then some .closeE else none

/-- `bio.Writer.Close`: flush, then close the handle; the flush error, when
there is one, is the error returned, else the close outcome. -/
def Writer.Close (w : Writer) : Writer × Option WErr :=
  let t := bflush w
  let e1 := fclose t.1
  (t.1, if t.2 = none then e1 else t.2)

/-- A sequential write operation: `Write` (a byte slice), `WriteString`
(a string's bytes), or `WriteByte`. -/
inductive WOp where
  | write (bs : List Nat)
  | wstr (bs : List Nat)
  | wbyte (b : Nat)

/-- The byte count an operation writes. -/
def WOp.size : WOp → Nat
  | .write bs => bs.length
  | .wstr bs => bs.length
  | .wbyte _ => 1

/-- Perform one write operation (ignoring its returned count/error, as a
sequential caller does). -/
def applyOp (w : Writer) : WOp → Writer
  | .write bs => (Writer.Write w bs).1
  | .wstr bs => (Writer.WriteString w bs).1
  | .wbyte b => (Writer.WriteByte w b).1

/-- Perform a sequence of write operations. -/
def runOps : Writer → List WOp → Writer
  | w, [] => w
  | w, op :: rest => runOps (applyOp w op) rest

/-- The invariant a fault-free writer maintains: handle present, no sticky
error, no write fault, buffer within capacity, and (handle cursor) +
(buffered bytes) equals the total written so far. -/
def good (w : Writer) (tot : Nat) : Prop :=
  w.f = some () ∧ w.werr = false ∧ w.dst.wfail = false ∧
  w.wbuf.length ≤ bufSize ∧ w.dst.pos + w.wbuf.length = tot

/-! ### Lemmas on the buffered read layer -/

theorem bufSize_pos : 0 < bufSize := by decide

theorem bufioRead_err (r : Reader) (k : Nat) (hk : k ≠ 0) (hr : remaining r = []) :
    bufioRead r k = .error r.src.tail.toErr := by
  rw [remaining, List.append_eq_nil] at hr
  obtain ⟨h1, h2⟩ := hr
  simp [bufioRead, hk, h1, h2]

theorem take_drop_glue (l : List Nat) (n k : Nat) (hk : k ≤ n) :
    (l.take n).drop k ++ l.drop ((l.take n).length) = l.drop k := by
  rw [List.drop_take, List.length_take]
  by_cases h : n ≤ l.length
  · rw [Nat.min_eq_left h]
    have h2 : l.drop n = (l.drop k).drop (n - k) := by
      rw [List.drop_drop]
      congr 1
      omega
    rw [h2, List.take_append_drop]
  · push_neg at h
    rw [Nat.min_eq_right (le_of_lt h), List.drop_length, List.append_nil,
      List.take_of_length_le (by rw [List.length_drop]; omega)]

theorem bufioRead_ok (r : Reader) (k : Nat) (hk : k ≠ 0) (hr : remaining r ≠ []) :
    ∃ bs m r', bufioRead r k = .ok (bs, r') ∧
      bs = (remaining r).take m ∧ 1 ≤ m ∧ m ≤ k ∧ m ≤ (remaining r).length ∧
      remaining r' = (remaining r).drop m ∧
      r'.src.tail = r.src.tail ∧ r'.f = r.f ∧
      logicalPos r' = logicalPos r + m := by
  rw [bufioRead, if_neg hk]
  by_cases hb : r.buf = []
  · rw [if_pos hb]
    have hav : r.src.avail ≠ [] := fun h => hr (by simp [remaining, hb, h])
    obtain ⟨a, rest, hav'⟩ := List.exists_cons_of_ne_nil hav
    have hrem : remaining r = r.src.avail := by simp [remaining, hb]
    have havlen : r.src.avail.length ≠ 0 := by simp [hav']
    rw [hav']
    dsimp only
    by_cases hbig : bufSize ≤ k
    · rw [if_pos hbig]
      refine ⟨_, min k r.src.avail.length, _, rfl, ?_, ?_, ?_, ?_, ?_, rfl, rfl, ?_⟩
      · rw [hrem, ← hav']
        exact List.take_eq_take.mpr (by omega)
      · have := bufSize_pos
        omega
      · omega
      · rw [hrem]
        omega
      · simp only [remaining, File.avail, hrem, hb, List.nil_append]
        rw [← hav', List.length_take, List.drop_drop, File.avail]
      · simp only [logicalPos, hb, List.nil_append, List.length_nil, List.length_take,
          ← hav']
        push_cast
        omega
    · rw [if_neg hbig]
      refine ⟨_, min k r.src.avail.length, _, rfl, ?_, ?_, ?_, ?_, ?_, rfl, rfl, ?_⟩
      · rw [hrem, ← hav', List.take_take]
        exact List.take_eq_take.mpr (by omega)
      · omega
      · omega
      · rw [hrem]
        omega
      · have hAV : r.src.content.drop r.src.pos = r.src.avail := rfl
        simp only [remaining, File.avail, hb, List.nil_append]
        rw [hAV]
        have hchunk : r.src.content.drop
              (r.src.pos + (r.src.avail.take bufSize).length)
            = r.src.avail.drop ((r.src.avail.take bufSize).length) := by
          rw [File.avail, List.drop_drop]
        rw [← hav', hchunk]
        by_cases hle : k ≤ r.src.avail.length
        · rw [Nat.min_eq_left hle]
          exact take_drop_glue r.src.avail bufSize k (by omega)
        · push_neg at hle
          have h1 : r.src.avail.take bufSize = r.src.avail :=
            List.take_of_length_le (by omega)
          rw [h1, List.drop_of_length_le (le_of_lt hle), List.nil_append,
            List.drop_length, Nat.min_eq_right (le_of_lt hle), List.drop_length]
      · simp only [logicalPos, hb, List.nil_append, List.length_nil, List.length_drop,
          List.length_take, ← hav']
        push_cast
        omega
  · rw [if_neg hb]
    have hblen : r.buf.length ≠ 0 := by
      intro h; exact hb (List.length_eq_zero.mp h)
    refine ⟨_, min k r.buf.length, _, rfl, ?_, ?_, ?_, ?_, ?_, rfl, rfl, ?_⟩
    · rw [remaining, List.take_append_of_le_length (Nat.min_le_right k r.buf.length)]
      exact List.take_eq_take.mpr (by omega)
    · omega
    · omega
    · rw [remaining, List.length_append]
      omega
    · rw [remaining, remaining,
        List.drop_append_of_le_length (Nat.min_le_right k r.buf.length)]
      simp only
      congr 1
      by_cases hle : k ≤ r.buf.length
      · rw [Nat.min_eq_left hle]
      · push_neg at hle
        rw [List.drop_of_length_le (le_of_lt hle), Nat.min_eq_right (le_of_lt hle),
          List.drop_length]
    · simp only [logicalPos, List.length_drop]
      push_cast
      omega

theorem readFullAux_spec (fuel : Nat) : ∀ (k : Nat) (r : Reader), k ≤ fuel →
    (readFullAux fuel r k).1 = (remaining r).take k ∧
    remaining (readFullAux fuel r k).2.1 = (remaining r).drop k ∧
    (readFullAux fuel r k).2.1.src.tail = r.src.tail ∧
    (readFullAux fuel r k).2.1.f = r.f ∧
    logicalPos (readFullAux fuel r k).2.1
      = logicalPos r + min k (remaining r).length ∧
    (readFullAux fuel r k).2.2
      = (if k ≤ (remaining r).length then none else some r.src.tail.toErr) := by
  induction fuel with
  | zero =>
    intro k r hk
    have hk0 : k = 0 := by omega
    subst hk0
    simp [readFullAux]
  | succ fuel ih =>
    intro k r hkf
    by_cases hk : k = 0
    · subst hk
      simp [readFullAux]
    · by_cases hr : remaining r = []
      · have herr := bufioRead_err r k hk hr
        rw [readFullAux, if_neg hk, herr]
        dsimp only
        rw [hr]
        simp [Nat.le_zero, hk]
      · obtain ⟨bs, m, r', heq, hbs, hm1, hmk, hmlen, hrem', htail, hf, hlog⟩ :=
          bufioRead_ok r k hk hr
        have hbslen : bs.length = m := by
          rw [hbs, List.length_take]
          omega
        have hbs0 : ¬ bs.length = 0 := by omega
        rw [readFullAux, if_neg hk, heq]
        dsimp only
        rw [if_neg hbs0]
        dsimp only
        obtain ⟨ih1, ih2, ih3, ih4, ih5, ih6⟩ := ih (k - bs.length) r' (by omega)
        refine ⟨?_, ?_, ?_, ?_, ?_, ?_⟩
        · rw [ih1, hbslen, hbs, hrem', ← List.take_add]
          congr 1
          omega
        · rw [ih2, hbslen, hrem', List.drop_drop]
          congr 1
          omega
        · rw [ih3, htail]
        · rw [ih4, hf]
        · rw [ih5, hbslen, hlog, hrem', List.length_drop]
          push_cast
          omega
        · rw [ih6, hbslen, hrem', htail, List.length_drop]
          have hiff : (k - m ≤ (remaining r).length - m) ↔ (k ≤ (remaining r).length) := by
            omega
          simp only [hiff]

theorem readFull_spec (k : Nat) (r : Reader) :
    (readFull r k).1 = (remaining r).take k ∧
    remaining (readFull r k).2.1 = (remaining r).drop k ∧
    (readFull r k).2.1.src.tail = r.src.tail ∧
    (readFull r k).2.1.f = r.f ∧
    logicalPos (readFull r k).2.1 = logicalPos r + min k (remaining r).length ∧
    (readFull r k).2.2
      = (if k ≤ (remaining r).length then none else some r.src.tail.toErr) :=
  readFullAux_spec k k r (le_refl k)

theorem Bread_eq (r : Reader) (k : Nat) :
    Bread r k = (if k ≤ (remaining r).length then (k : Int)
        else if 0 < (remaining r).length then ((remaining r).length : Int)
        else if r.src.tail = .eof then 0 else -1,
      (remaining r).take k, (readFull r k).2.1) := by
  obtain ⟨h1, _, _, _, _, h6⟩ := readFull_spec k r
  have hn : (readFull r k).1.length = min k (remaining r).length := by
    rw [h1, List.length_take]
  simp only [Bread, ioReadFull]
  rw [hn]
  by_cases hkL : k ≤ (remaining r).length
  · have he : (readFull r k).2.2 = none := by rw [h6, if_pos hkL]
    rw [if_pos (show k ≤ min k (remaining r).length by omega)]
    rw [if_neg (by simp : ¬ ((min k (remaining r).length = 0)
      ∧ (none : Option RErr) ≠ none ∧ (none : Option RErr) ≠ some RErr.eofE))]
    rw [if_pos hkL, Nat.min_eq_left hkL, h1]
  · have he : (readFull r k).2.2 = some r.src.tail.toErr := by rw [h6, if_neg hkL]
    push_neg at hkL
    rw [he, if_neg (show ¬ k ≤ min k (remaining r).length by omega),
      if_neg (show ¬ k ≤ (remaining r).length by omega), h1]
    cases htail : r.src.tail <;>
      simp only [htail, Tail.toErr] <;>
      split_ifs <;>
      simp_all <;>
      first
        | omega
        | (rcases ‹k = 0 ∨ remaining r = []› with h0 | h0 <;> simp_all)

/-- C6: the bulk read `Bread` into a caller buffer of length `k` reads until
the buffer is full or the stream ends, returning the count of bytes actually
filled (and filling the buffer with exactly the next bytes of the stream);
it returns the sentinel `-1` exactly when zero bytes were obtained and the
underlying cause was a genuine error rather than a clean end-of-stream. -/
theorem bread_bulk_read_spec (r : Reader) (k : Nat) :
    (Bread r k).2.1 = (remaining r).take k ∧
    (Bread r k).1 = (if k ≤ (remaining r).length then (k : Int)
      else if 0 < (remaining r).length then ((remaining r).length : Int)
      else if r.src.tail = .eof then 0 else -1) ∧
    ((Bread r k).1 = -1 ↔ remaining r = [] ∧ 0 < k ∧ r.src.tail = .ioErr) := by
  rw [Bread_eq]
  refine ⟨rfl, rfl, ?_⟩
  rw [← List.length_eq_zero]
  dsimp only
  constructor
  · intro h
    by_cases c1 : k ≤ (remaining r).length
    · rw [if_pos c1] at h
      exfalso
      omega
    · rw [if_neg c1] at h
      by_cases c2 : 0 < (remaining r).length
      · rw [if_pos c2] at h
        exfalso
        omega
      · rw [if_neg c2] at h
        by_cases c3 : r.src.tail = .eof
        · rw [if_pos c3] at h
          exact absurd h (by decide)
        · refine ⟨by omega, by omega, ?_⟩
          cases h2 : r.src.tail with
          | eof => exact absurd h2 c3
          | ioErr => rfl
  · rintro ⟨h0, h1, h2⟩
    rw [if_neg (by omega), if_neg (by omega),
      if_neg (show ¬ r.src.tail = Tail.eof by rw [h2]; decide)]

/-- C10: whenever `Bread` obtains at least one byte before the underlying
read fails with a genuine (non-end-of-stream) error, it returns only the
positive count of bytes obtained; the failure is invisible in the return
value, which coincides with what a cleanly ending stream would produce. -/
theorem bread_partial_failure_invisible (r : Reader) (k : Nat)
    (h1 : remaining r ≠ []) (h2 : (remaining r).length < k)
    (h3 : r.src.tail = .ioErr) :
    (Bread r k).1 = ((remaining r).length : Int) ∧ 0 < (Bread r k).1 ∧
    (Bread r k).1 = (Bread { r with src := { r.src with tail := .eof } } k).1 := by
  have hL : 0 < (remaining r).length := List.length_pos.mpr h1
  have hrem2 : remaining { r with src := { r.src with tail := .eof } } = remaining r := rfl
  rw [Bread_eq, Bread_eq]
  simp only [hrem2]
  rw [if_neg (by omega), if_pos hL, if_neg (by omega), if_pos hL]
  refine ⟨rfl, by omega, rfl⟩

/-- Witness for C10 at a concrete faulty one-byte stream and a 3-byte
request. -/
theorem bread_partial_failure_invisible_witness :
    (Bread { f := some (), src := ⟨[7], 0, Tail.ioErr⟩, buf := [] } 3).1 = 1 := by
  have h := bread_partial_failure_invisible
    { f := some (), src := ⟨[7], 0, Tail.ioErr⟩, buf := [] } 3 (by decide) (by decide) rfl
  rw [h.1]
  decide

/-- C5: the single-byte read `Bgetc` returns a value in the byte range when
a byte is available, returns the sentinel `EOF = -1` exactly when the stream
has cleanly ended, and is fatal exactly when the read fails for any other
reason. -/
theorem bgetc_byte_or_eof (r : Reader) (hwf : ∀ b ∈ remaining r, b < 256) :
    (Bgetc r = .fatal ↔ remaining r = [] ∧ r.src.tail = .ioErr) ∧
    ((∃ r', Bgetc r = .ok (EOF, r')) ↔ remaining r = [] ∧ r.src.tail = .eof) ∧
    (remaining r ≠ [] → ∃ c r', Bgetc r = .ok ((c : Nat), r') ∧ c < 256) := by
  cases hbuf : r.buf with
  | cons b rest =>
    have hb : b < 256 := hwf b (by rw [remaining, hbuf]; exact List.mem_cons_self b _)
    have hBg : Bgetc r = .ok ((b : Int), { r with buf := rest }) := by
      simp [Bgetc, bufioReadByte, hbuf]
    have hne : remaining r ≠ [] := by
      rw [remaining, hbuf]
      simp
    refine ⟨?_, ?_, ?_⟩
    · simp [hBg, hne]
    · constructor
      · rintro ⟨r', hr'⟩
        rw [hBg, Out.ok.injEq, Prod.mk.injEq] at hr'
        exfalso
        have hc := hr'.1
        rw [EOF] at hc
        omega
      · rintro ⟨h0, -⟩
        exact absurd h0 hne
    · intro _
      exact ⟨b, { r with buf := rest }, hBg, hb⟩
  | nil =>
    cases hav : r.src.avail with
    | cons a rest =>
      have ha : a < 256 :=
        hwf a (by rw [remaining, hbuf, hav]; exact List.mem_cons_self a _)
      have hBg : Bgetc r = .ok ((a : Int),
          ⟨r.f, ⟨r.src.content, r.src.pos + 1 + (rest.take (bufSize - 1)).length,
            r.src.tail⟩, rest.take (bufSize - 1)⟩) := by
        simp [Bgetc, bufioReadByte, hbuf, hav]
      have hne : remaining r ≠ [] := by
        rw [remaining, hbuf, hav]
        simp
      refine ⟨?_, ?_, ?_⟩
      · simp [hBg, hne]
      · constructor
        · rintro ⟨r', hr'⟩
          rw [hBg, Out.ok.injEq, Prod.mk.injEq] at hr'
          exfalso
          have hc := hr'.1
          rw [EOF] at hc
          omega
        · rintro ⟨h0, -⟩
          exact absurd h0 hne
      · intro _
        exact ⟨a, _, hBg, ha⟩
    | nil =>
      have hrem : remaining r = [] := by rw [remaining, hbuf, hav]; rfl
      cases htail : r.src.tail
      · have hBg : Bgetc r = .ok (EOF, r) := by
          simp [Bgetc, bufioReadByte, hbuf, hav, htail, Tail.toErr]
        refine ⟨?_, ?_, ?_⟩
        · simp [hBg, hrem]
        · simp only [hrem]
          simp [hBg]
        · intro h
          exact absurd hrem h
      · have hBg : Bgetc r = .fatal := by
          simp [Bgetc, bufioReadByte, hbuf, hav, htail, Tail.toErr]
        refine ⟨?_, ?_, ?_⟩
        · simp [hBg, hrem]
        · simp [hBg, hrem]
        · intro h
          exact absurd hrem h

/-- C2: for a reader carrying a handle, `Offset` reports the raw handle
cursor minus the count of buffered-but-unconsumed bytes (the logical
position), and `Seek(0, whence = from-current)` first subtracts that
buffered count before seeking, then discards the buffer, so the seek
returns the logical position and a subsequent `Offset` still reports it
rather than the raw cursor. -/
theorem reader_offset_seek_current (r : Reader) (hf : r.f = some ())
    (hb : r.buf.length ≤ r.src.pos) :
    Reader.Offset r = .ok (logicalPos r) ∧
    Reader.Seek r 0 1 = .ok (logicalPos r,
      ⟨r.f, ⟨r.src.content, (logicalPos r).toNat, r.src.tail⟩, []⟩) ∧
    Reader.Offset ⟨r.f, ⟨r.src.content, (logicalPos r).toNat, r.src.tail⟩, []⟩
      = .ok (logicalPos r) := by
  have hnn : ¬ ((r.src.pos : Int) + (0 - (r.buf.length : Int)) < 0) := by
    push_cast
    omega
  have hval : (r.src.pos : Int) + (0 - (r.buf.length : Int)) = logicalPos r := by
    rw [logicalPos]
    ring
  have hseek : r.src.seek (0 - (r.buf.length : Int)) 1
      = .ok (logicalPos r, ⟨r.src.content, (logicalPos r).toNat, r.src.tail⟩) := by
    rw [File.seek, if_neg (by decide : ¬ (1 : Nat) = 0), if_pos (rfl : (1 : Nat) = 1)]
    dsimp only
    rw [if_neg hnn, hval]
  refine ⟨?_, ?_, ?_⟩
  · rw [Reader.Offset, hf, logicalPos]
  · rw [Reader.Seek, hf]
    dsimp only
    rw [if_pos (rfl : (1 : Nat) = 1), hseek]
  · rw [Reader.Offset, hf]
    dsimp only
    simp only [List.length_nil, Nat.cast_zero, sub_zero]
    rw [Int.toNat_of_nonneg (by rw [logicalPos]; push_cast; omega)]

theorem offset_eq_logical (r : Reader) (hf : r.f = some ()) :
    Reader.Offset r = .ok (logicalPos r) := by
  rw [Reader.Offset, hf, logicalPos]

theorem peek_ok (r : Reader) (n : Nat) (bs : List Nat) (r' : Reader)
    (h : Reader.Peek r n = (bs, r', none)) :
    bs = (remaining r).take n ∧ n ≤ (remaining r).length ∧
    remaining r' = remaining r ∧ logicalPos r' = logicalPos r ∧
    r'.f = r.f ∧ r'.src.tail = r.src.tail := by
  rw [Reader.Peek] at h
  by_cases h1 : bufSize < n
  · rw [if_pos h1] at h
    exact absurd (congrArg (fun t => t.2.2) h) (by simp)
  · rw [if_neg h1] at h
    by_cases h2 : n ≤ r.buf.length
    · rw [if_pos h2] at h
      have hbs := congrArg Prod.fst h
      have hr' := congrArg (fun t => t.2.1) h
      dsimp only at hbs hr'
      refine ⟨?_, by rw [remaining, List.length_append]; omega, ?_, ?_, ?_, ?_⟩
      · rw [← hbs, remaining, List.take_append_of_le_length h2]
      · rw [← hr']
      · rw [← hr']
      · rw [← hr']
      · rw [← hr']
    · rw [if_neg h2] at h
      dsimp only at h
      push_neg at h1 h2
      by_cases h3 : n ≤ (r.buf ++ r.src.avail.take
          (min (bufSize - r.buf.length) r.src.avail.length)).length
      · rw [if_pos h3] at h
        have hbs := congrArg Prod.fst h
        have hr' := congrArg (fun t => t.2.1) h
        dsimp only at hbs hr'
        rw [List.length_append, List.length_take] at h3
        have hg : min (min (bufSize - r.buf.length) r.src.avail.length)
            r.src.avail.length = min (bufSize - r.buf.length) r.src.avail.length := by
          omega
        rw [hg] at h3
        refine ⟨?_, ?_, ?_, ?_, ?_, ?_⟩
        · rw [← hbs, remaining, List.take_append_eq_append_take,
            List.take_append_eq_append_take, List.take_take]
          congr 2
          omega
        · rw [remaining, List.length_append]
          omega
        · rw [← hr', remaining, remaining]
          dsimp only
          rw [List.append_assoc, List.append_cancel_left_eq, File.avail, File.avail]
          dsimp only
          rw [show r.src.content.drop (r.src.pos + min (bufSize - r.buf.length)
              ((r.src.content.drop r.src.pos).length))
            = (r.src.content.drop r.src.pos).drop
              (min (bufSize - r.buf.length) ((r.src.content.drop r.src.pos).length))
              from by rw [List.drop_drop]]
          exact List.take_append_drop ..
        · rw [← hr', logicalPos, logicalPos]
          dsimp only
          rw [List.length_append, List.length_take]
          push_cast
          omega
        · rw [← hr']
        · rw [← hr']
      · rw [if_neg h3] at h
        exact absurd (congrArg (fun t => t.2.2) h) (by simp)

/-- C8: a successful `Peek(n)` followed by a read of `n` bytes (the
`io.ReadFull` loop over `Read`) yields exactly the `n` bytes `Peek`
returned; those are also the bytes a read of `n` bytes from the original
reader yields, and `Offset` after peek-then-read equals `Offset` after the
read alone — `Peek` does not advance the logical position. -/
theorem peek_then_read (r : Reader) (n : Nat) (bs : List Nat) (r' : Reader)
    (hf : r.f = some ()) (h : Reader.Peek r n = (bs, r', none)) :
    bs.length = n ∧
    (readFull r' n).1 = bs ∧
    (readFull r n).1 = bs ∧
    Reader.Offset (readFull r' n).2.1 = Reader.Offset (readFull r n).2.1 := by
  obtain ⟨hbs, hlen, hrem, hlog, hf', htail⟩ := peek_ok r n bs r' h
  obtain ⟨a1, a2, a3, a4, a5, a6⟩ := readFull_spec n r'
  obtain ⟨b1, b2, b3, b4, b5, b6⟩ := readFull_spec n r
  refine ⟨?_, ?_, ?_, ?_⟩
  · rw [hbs, List.length_take]
    omega
  · rw [a1, hrem, hbs]
  · rw [b1, hbs]
  · rw [offset_eq_logical _ (by rw [a4, hf']; exact hf),
      offset_eq_logical _ (by rw [b4]; exact hf), a5, b5, hrem, hlog]

/-- Witness for C8: peek 3 bytes of a 5-byte stream, then read 3. -/
theorem peek_then_read_witness :
    ([10, 20, 30] : List Nat).length = 3 ∧
    (readFull ⟨some (), ⟨[10, 20, 30, 40, 50], 5, Tail.eof⟩,
      [10, 20, 30, 40, 50]⟩ 3).1 = [10, 20, 30] ∧
    (readFull (Bio.Open [10, 20, 30, 40, 50]) 3).1 = [10, 20, 30] ∧
    Reader.Offset (readFull ⟨some (), ⟨[10, 20, 30, 40, 50], 5, Tail.eof⟩,
        [10, 20, 30, 40, 50]⟩ 3).2.1
      = Reader.Offset (readFull (Bio.Open [10, 20, 30, 40, 50]) 3).2.1 :=
  peek_then_read (Bio.Open [10, 20, 30, 40, 50]) 3 [10, 20, 30]
    ⟨some (), ⟨[10, 20, 30, 40, 50], 5, Tail.eof⟩, [10, 20, 30, 40, 50]⟩
    rfl (by decide)

/-- Witness for C2: a 10-byte stream read 3 bytes in (read-ahead buffered 7
more, raw cursor at 10); `Seek(0, 1)` returns 3 and `Offset` then reports
3, not the raw cursor 10. -/
theorem reader_offset_seek_current_witness :
    Reader.Seek ⟨some (), ⟨[0, 1, 2, 3, 4, 5, 6, 7, 8, 9], 10, Tail.eof⟩,
        [3, 4, 5, 6, 7, 8, 9]⟩ 0 1
      = .ok (3, ⟨some (), ⟨[0, 1, 2, 3, 4, 5, 6, 7, 8, 9], 3, Tail.eof⟩, []⟩) ∧
    Reader.Offset ⟨some (), ⟨[0, 1, 2, 3, 4, 5, 6, 7, 8, 9], 3, Tail.eof⟩, []⟩
      = .ok 3 := by
  obtain ⟨h1, h2, h3⟩ := reader_offset_seek_current
    ⟨some (), ⟨[0, 1, 2, 3, 4, 5, 6, 7, 8, 9], 10, Tail.eof⟩, [3, 4, 5, 6, 7, 8, 9]⟩
    rfl (by decide)
  exact ⟨h2.trans (by decide), h3.trans (by decide)⟩

theorem span_not_mem (d : Nat) (l : List Nat) (hd : d ∉ l) : span d l = none := by
  induction l with
  | nil => rfl
  | cons b bs ih =>
    rw [span, if_neg (fun h => hd (by rw [← h]; exact List.mem_cons_self b bs)),
      ih (fun h => hd (List.mem_cons_of_mem _ h))]

theorem span_mem (d : Nat) (pre rest : List Nat) (hd : d ∉ pre) :
    span d (pre ++ d :: rest) = some (pre ++ [d], rest) := by
  induction pre with
  | nil =>
    rw [List.nil_append, span, if_pos rfl]
    rfl
  | cons b bs ih =>
    rw [List.cons_append, span,
      if_neg (fun h => hd (by rw [← h]; exact List.mem_cons_self b bs)),
      ih (fun h => hd (List.mem_cons_of_mem _ h))]
    rfl

/-- C1 (amended): `Brdline` returns the bytes up to and including the first
occurrence of the delimiter as one sequence; it is fatal whenever
`ReadBytes` reports any error — a genuine read failure, but also clean
end-of-stream: when the delimiter does not occur in the rest of the stream
(in particular when the stream ends with no trailing delimiter, or at
end-of-stream), the call is fatal rather than returning the remaining bytes
or an end-of-stream indication. -/
theorem brdline_delim_or_fatal (r : Reader) (d : Nat) (hd : d < 256) :
    (∀ pre rest, remaining r = pre ++ d :: rest → d ∉ pre →
      Brdline r d = .ok (pre ++ [d], consumeN r (pre.length + 1))) ∧
    (d ∉ remaining r → Brdline r d = .fatal) := by
  constructor
  · intro pre rest hsplit hpre
    have hrb : readBytes r (d % 256)
        = (pre ++ [d], consumeN r ((pre ++ [d]).length), none) := by
      rw [readBytes, Nat.mod_eq_of_lt hd, hsplit, span_mem d pre rest hpre]
    rw [Brdline, hrb]
    dsimp only
    rw [List.length_append]
    rfl
  · intro hnot
    have hrb : readBytes r (d % 256)
        = (remaining r, consumeN r (remaining r).length, some r.src.tail.toErr) := by
      rw [readBytes, Nat.mod_eq_of_lt hd, span_not_mem d _ hnot]
    rw [Brdline, hrb]

/-- Counterexample for C1 as stated: on input `"ab;cd"` (stream ends with no
trailing delimiter) the first `Brdline` call returns `"ab;"`, but the final
call is fatal instead of returning the remaining bytes `"cd"`, and there is
no subsequent clean end-of-stream report. -/
theorem brdline_eof_without_delim_fatal :
    Brdline (Bio.Open [97, 98, 59, 99, 100]) 59
      = .ok ([97, 98, 59],
        ⟨some (), ⟨[97, 98, 59, 99, 100], 5, Tail.eof⟩, [99, 100]⟩) ∧
    Brdline ⟨some (), ⟨[97, 98, 59, 99, 100], 5, Tail.eof⟩, [99, 100]⟩ 59
      = .fatal := by
  decide

/-- Witness for the amended C1 on input `"ab;cd;"`: the first call returns
`"ab;"` (the delimiter included). -/
theorem brdline_delim_or_fatal_witness :
    Brdline (Bio.Open [97, 98, 59, 99, 100, 59]) 59
      = .ok ([97, 98, 59], consumeN (Bio.Open [97, 98, 59, 99, 100, 59]) 3) :=
  (brdline_delim_or_fatal (Bio.Open [97, 98, 59, 99, 100, 59]) 59
    (by decide)).1 [97, 98] [99, 100, 59] (by decide) (by decide)

/-- Witness for C5 at a concrete one-byte stream. -/
theorem bgetc_byte_or_eof_witness :
    (Bgetc (Bio.Open [65]) = .fatal
        ↔ remaining (Bio.Open [65]) = [] ∧ (Bio.Open [65]).src.tail = .ioErr) ∧
    ((∃ r', Bgetc (Bio.Open [65]) = .ok (EOF, r'))
        ↔ remaining (Bio.Open [65]) = [] ∧ (Bio.Open [65]).src.tail = .eof) ∧
    (remaining (Bio.Open [65]) ≠ []
        → ∃ c r', Bgetc (Bio.Open [65]) = .ok ((c : Nat), r') ∧ c < 256) :=
  bgetc_byte_or_eof (Bio.Open [65]) (by decide)

/-! ### Lemmas on the buffered write layer -/

theorem bflush_f (w : Writer) : (bflush w).1.f = w.f := by
  rw [bflush]
  split_ifs
  · rfl
  · rfl
  · cases hw : w.dst.write w.wbuf <;> rfl

theorem bflush_wbuf (w : Writer) (h : (bflush w).2 = none) :
    (bflush w).1.wbuf = [] := by
  rw [bflush] at h ⊢
  by_cases h1 : w.werr
  · rw [if_pos h1] at h
    simp at h
  · rw [if_neg h1] at h ⊢
    by_cases h2 : w.wbuf = []
    · rw [if_pos h2]
      exact h2
    · rw [if_neg h2] at h ⊢
      cases hw : w.dst.write w.wbuf with
      | error e =>
        rw [hw] at h
        simp at h
      | ok d' => rfl

theorem bflush_good (w : Writer) (hw : w.werr = false) (hwf : w.dst.wfail = false) :
    (bflush w).2 = none ∧ (bflush w).1.werr = false ∧ (bflush w).1.wbuf = [] ∧
    (bflush w).1.f = w.f ∧ (bflush w).1.dst.pos = w.dst.pos + w.wbuf.length ∧
    (bflush w).1.dst.wfail = false := by
  have hne : ¬ w.werr = true := by
    rw [hw]
    exact Bool.false_ne_true
  have hnwf : ¬ w.dst.wfail = true := by
    rw [hwf]
    exact Bool.false_ne_true
  by_cases h2 : w.wbuf = []
  · rw [bflush, if_neg hne, if_pos h2]
    refine ⟨rfl, hw, h2, rfl, ?_, hwf⟩
    rw [h2]
    simp
  · rw [bflush, if_neg hne, if_neg h2, WFile.write, if_neg hnwf]
    dsimp only
    exact ⟨rfl, hw, rfl, rfl, rfl, hwf⟩

theorem bwrite_good (w : Writer) (p : List Nat) (hw : w.werr = false)
    (hwf : w.dst.wfail = false) (hb : w.wbuf.length ≤ bufSize) :
    (bwrite w p).1.f = w.f ∧ (bwrite w p).1.werr = false ∧
    (bwrite w p).1.dst.wfail = false ∧
    (bwrite w p).1.wbuf.length ≤ bufSize ∧
    (bwrite w p).1.dst.pos + (bwrite w p).1.wbuf.length
      = w.dst.pos + w.wbuf.length + p.length := by
  have hne : ¬ w.werr = true := by
    rw [hw]
    exact Bool.false_ne_true
  have hnwf : ¬ w.dst.wfail = true := by
    rw [hwf]
    exact Bool.false_ne_true
  rw [bwrite, if_neg hne]
  by_cases c1 : p.length ≤ bufSize - w.wbuf.length
  · rw [if_pos c1]
    refine ⟨rfl, hw, hwf, ?_, ?_⟩
    · dsimp only
      rw [List.length_append]
      omega
    · dsimp only
      rw [List.length_append]
      omega
  · rw [if_neg c1]
    by_cases c2 : w.wbuf.length = 0
    · rw [if_pos c2, WFile.write, if_neg hnwf]
      dsimp only
      refine ⟨rfl, hw, hwf, hb, ?_⟩
      omega
    · rw [if_neg c2]
      dsimp only
      rw [WFile.write, if_neg hnwf]
      dsimp only
      by_cases c3 : bufSize < (p.drop (bufSize - w.wbuf.length)).length
      · rw [if_pos c3, WFile.write]
        dsimp only
        rw [if_neg hnwf]
        dsimp only
        refine ⟨rfl, hw, hwf, by simp, ?_⟩
        simp only [List.length_append, List.length_take, List.length_drop,
          List.length_nil]
        simp only [List.length_drop] at c3
        omega
      · rw [if_neg c3]
        refine ⟨rfl, hw, hwf, ?_, ?_⟩
        · dsimp only
          rw [List.length_drop] at c3 ⊢
          omega
        · dsimp only
          rw [List.length_append, List.length_take, List.length_drop]
          omega

theorem writeByte_good (w : Writer) (b : Nat) (hw : w.werr = false)
    (hwf : w.dst.wfail = false) (hb : w.wbuf.length ≤ bufSize) :
    (Writer.WriteByte w b).1.f = w.f ∧ (Writer.WriteByte w b).1.werr = false ∧
    (Writer.WriteByte w b).1.dst.wfail = false ∧
    (Writer.WriteByte w b).1.wbuf.length ≤ bufSize ∧
    (Writer.WriteByte w b).1.dst.pos + (Writer.WriteByte w b).1.wbuf.length
      = w.dst.pos + w.wbuf.length + 1 := by
  have hne : ¬ w.werr = true := by
    rw [hw]
    exact Bool.false_ne_true
  rw [Writer.WriteByte, if_neg hne]
  by_cases c1 : bufSize - w.wbuf.length = 0
  · rw [if_pos c1]
    obtain ⟨f1, f2, f3, f4, f5, f6⟩ := bflush_good w hw hwf
    rcases hbf : bflush w with ⟨w2, e⟩
    rw [hbf] at f1 f2 f3 f4 f5 f6
    dsimp only at f1 f2 f3 f4 f5 f6
    subst f1
    dsimp only
    have hbs := bufSize_pos
    refine ⟨f4, f2, f6, ?_, ?_⟩
    · rw [f3]
      simp only [List.nil_append, List.length_cons, List.length_nil]
      omega
    · rw [f3, f5]
      simp only [List.nil_append, List.length_cons, List.length_nil]
  · rw [if_neg c1]
    refine ⟨rfl, hw, hwf, ?_, ?_⟩
    · dsimp only
      rw [List.length_append]
      simp only [List.length_cons, List.length_nil]
      omega
    · dsimp only
      rw [List.length_append]
      simp only [List.length_cons, List.length_nil]
      omega

theorem bflush_nil (w : Writer) (h1 : w.werr = false) (h2 : w.wbuf = []) :
    bflush w = (w, none) := by
  rw [bflush, if_neg (by rw [h1]; exact Bool.false_ne_true), if_pos h2]

theorem good_apply (w : Writer) (tot : Nat) (op : WOp) (h : good w tot) :
    good (applyOp w op) (tot + op.size) := by
  obtain ⟨h1, h2, h3, h4, h5⟩ := h
  cases op with
  | write bs =>
    obtain ⟨g1, g2, g3, g4, g5⟩ := bwrite_good w bs h2 h3 h4
    show good ((bwrite w bs).1) (tot + bs.length)
    exact ⟨g1.trans h1, g2, g3, g4, by omega⟩
  | wstr bs =>
    obtain ⟨g1, g2, g3, g4, g5⟩ := bwrite_good w bs h2 h3 h4
    show good ((bwrite w bs).1) (tot + bs.length)
    exact ⟨g1.trans h1, g2, g3, g4, by omega⟩
  | wbyte b =>
    obtain ⟨g1, g2, g3, g4, g5⟩ := writeByte_good w b h2 h3 h4
    show good ((Writer.WriteByte w b).1) (tot + 1)
    exact ⟨g1.trans h1, g2, g3, g4, by omega⟩

theorem runOps_good : ∀ (ops : List WOp) (w : Writer) (tot : Nat), good w tot →
    good (runOps w ops) (tot + (ops.map WOp.size).sum) := by
  intro ops
  induction ops with
  | nil =>
    intro w tot h
    simpa using h
  | cons op rest ih =>
    intro w tot h
    rw [runOps, List.map_cons, List.sum_cons, ← Nat.add_assoc]
    exact ih (applyOp w op) (tot + op.size) (good_apply w tot op h)

/-- C4: starting from a freshly created writer, after any sequence of
`Write`/`WriteString`/`WriteByte` operations followed by `Flush`, the flush
succeeds and `Offset` reports exactly the sum of the byte counts written;
`Offset` invoked directly (before the explicit flush) flushes the remaining
buffered bytes itself and reports the same sum. -/
theorem writer_offset_sums_writes (ops : List WOp) :
    (Writer.Flush (runOps Create ops)).2 = none ∧
    Writer.Offset (Writer.Flush (runOps Create ops)).1
      = .ok ((((ops.map WOp.size).sum : Nat) : Int),
        (Writer.Flush (runOps Create ops)).1) ∧
    Writer.Offset (runOps Create ops)
      = .ok ((((ops.map WOp.size).sum : Nat) : Int),
        (Writer.Flush (runOps Create ops)).1) := by
  have hg : good (runOps Create ops) ((ops.map WOp.size).sum) := by
    have h0 : good Create 0 := by
      refine ⟨rfl, rfl, rfl, ?_, rfl⟩
      show ([] : List Nat).length ≤ bufSize
      simp
    simpa using runOps_good ops Create 0 h0
  obtain ⟨h1, h2, h3, h4, h5⟩ := hg
  obtain ⟨f1, f2, f3, f4, f5, f6⟩ := bflush_good (runOps Create ops) h2 h3
  rw [Writer.Flush]
  rcases hb : bflush (runOps Create ops) with ⟨w1, e⟩
  rw [hb] at f1 f2 f3 f4 f5 f6
  dsimp only at f1 f2 f3 f4 f5 f6 ⊢
  subst f1
  have hpos : w1.dst.pos = (ops.map WOp.size).sum := by omega
  refine ⟨rfl, ?_, ?_⟩
  · rw [Writer.Offset, bflush_nil w1 f2 f3]
    dsimp only
    rw [f4.trans h1]
    dsimp only
    rw [hpos]
  · rw [Writer.Offset, hb]
    dsimp only
    rw [f4.trans h1]
    dsimp only
    rw [hpos]

/-- C3: `Writer.Seek` first flushes the write-behind buffer unconditionally
(fatal when the flush fails), then seeks the underlying handle from the
flushed state and returns the resulting absolute position; an underlying
seek failure is likewise fatal rather than a returned error. -/
theorem writer_seek_flush_first (w : Writer) (off : Int) (whence : Nat)
    (hf : w.f = some ()) :
    ((bflush w).2 ≠ none → Writer.Seek w off whence = .fatal) ∧
    ((bflush w).2 = none →
      (bflush w).1.wbuf = [] ∧
      (∀ e, WFile.seek (bflush w).1.dst off whence = .error e →
        Writer.Seek w off whence = .fatal) ∧
      (∀ t d', WFile.seek (bflush w).1.dst off whence = .ok (t, d') →
        Writer.Seek w off whence = .ok (t, { (bflush w).1 with dst := d' }))) := by
  have hwf : (bflush w).1.f = some () := (bflush_f w).trans hf
  constructor
  · intro h
    rw [Writer.Seek]
    rcases hb : bflush w with ⟨w', e⟩
    rw [hb] at h
    cases e with
    | none => exact absurd rfl h
    | some e0 => rfl
  · intro h
    refine ⟨bflush_wbuf w h, ?_, ?_⟩
    · intro e0 hseek
      rw [Writer.Seek]
      rcases hb : bflush w with ⟨w', e⟩
      rw [hb] at h hwf hseek
      dsimp only at h hwf hseek
      subst h
      dsimp only
      rw [hwf]
      dsimp only
      rw [hseek]
    · intro t d' hseek
      rw [Writer.Seek]
      rcases hb : bflush w with ⟨w', e⟩
      rw [hb] at h hwf hseek
      dsimp only at h hwf hseek
      subst h
      dsimp only
      rw [hwf]
      dsimp only
      rw [hseek]

/-- Witness for C3: a writer holding two buffered bytes; `Seek(5, 0)`
flushes them first (they land at offsets 0-1) and returns position 5. -/
theorem writer_seek_flush_first_witness :
    Writer.Seek ⟨some (), ⟨[], 0, false, false⟩, [1, 2], false⟩ 5 0
      = .ok (5, ⟨some (), ⟨[1, 2], 5, false, false⟩, [], false⟩) := by
  have h := (writer_seek_flush_first ⟨some (), ⟨[], 0, false, false⟩, [1, 2], false⟩
    5 0 rfl).2 (by decide)
  exact (h.2.2 5 ⟨[1, 2], 5, false, false⟩ (by rfl)).trans (by decide)

/-- C7: `Writer.Close` flushes pending buffered bytes and then releases the
handle; when the flush fails its error is the one reported, even if the
release also fails, and when the flush succeeds the release's outcome is
what is reported. -/
theorem writer_close_error_precedence (w : Writer) :
    (Writer.Close w).1 = (bflush w).1 ∧
    ((bflush w).2 ≠ none → (Writer.Close w).2 = (bflush w).2) ∧
    ((bflush w).2 = none → (Writer.Close w).1.wbuf = [] ∧
      (Writer.Close w).2 = fclose (bflush w).1) := by
  rw [Writer.Close]
  dsimp only
  refine ⟨rfl, ?_, ?_⟩
  · intro h
    rw [if_neg h]
  · intro h
    rw [if_pos h]
    exact ⟨bflush_wbuf w h, rfl⟩

/-- Witness for C7: flush fails (sticky write error) and the handle close
also fails; `Close` reports the write error, not the close error. -/
theorem writer_close_error_precedence_witness :
    (Writer.Close ⟨some (), ⟨[], 0, true, true⟩, [9], true⟩).2
      = some WErr.writeE := by
  have h := (writer_close_error_precedence
    ⟨some (), ⟨[], 0, true, true⟩, [9], true⟩).2.1 (by decide)
  rw [h]
  decide

/-- C9: `BufReader`/`BufWriter` adapter streams carry no underlying handle
(`f = none`), while `Open`/`Create` streams do; invoking `Seek` or `Offset`
on a handle-less stream hits the nil handle and aborts fatally, so those
operations are only well-defined for streams constructed via `Open` or
`Create`. -/
theorem adapter_mode_seek_offset_fatal (s : File) (d : WFile) (c : List Nat)
    (r : Reader) (w : Writer) (off : Int) (whence : Nat) :
    (BufReader s).f = none ∧ (BufWriter d).f = none ∧
    (Bio.Open c).f = some () ∧ Create.f = some () ∧
    (r.f = none → Reader.Seek r off whence = .fatal ∧ Reader.Offset r = .fatal) ∧
    (w.f = none → Writer.Seek w off whence = .fatal ∧ Writer.Offset w = .fatal) := by
  refine ⟨rfl, rfl, rfl, rfl, ?_, ?_⟩
  · intro h
    constructor
    · rw [Reader.Seek, h]
    · rw [Reader.Offset, h]
  · intro h
    have hwf : (bflush w).1.f = none := (bflush_f w).trans h
    constructor
    · rw [Writer.Seek]
      rcases hb : bflush w with ⟨w', e⟩
      rw [hb] at hwf
      dsimp only at hwf
      cases e with
      | some e0 => rfl
      | none =>
        dsimp only
        rw [hwf]
    · rw [Writer.Offset]
      rcases hb : bflush w with ⟨w', e⟩
      rw [hb] at hwf
      dsimp only at hwf
      cases e with
      | some e0 => rfl
      | none =>
        dsimp only
        rw [hwf]

/-- Witness for C9: `Seek` and `Offset` on concrete adapter streams abort. -/
theorem adapter_mode_seek_offset_fatal_witness :
    (BufReader ⟨[5], 0, Tail.eof⟩).f = none ∧
    (BufWriter ⟨[], 0, false, false⟩).f = none ∧
    (Bio.Open [5]).f = some () ∧ Create.f = some () ∧
    ((BufReader ⟨[5], 0, Tail.eof⟩).f = none →
      Reader.Seek (BufReader ⟨[5], 0, Tail.eof⟩) 0 1 = .fatal ∧
      Reader.Offset (BufReader ⟨[5], 0, Tail.eof⟩) = .fatal) ∧
    ((BufWriter ⟨[], 0, false, false⟩).f = none →
      Writer.Seek (BufWriter ⟨[], 0, false, false⟩) 0 1 = .fatal ∧
      Writer.Offset (BufWriter ⟨[], 0, false, false⟩) = .fatal) :=
  adapter_mode_seek_offset_fatal ⟨[5], 0, Tail.eof⟩ ⟨[], 0, false, false⟩ [5]
    (BufReader ⟨[5], 0, Tail.eof⟩) (BufWriter ⟨[], 0, false, false⟩) 0 1

end Bio
